import Mathlib

/-!
Verification development for the infinity-data-browser scripts
(`scripts/query_infinity.py`, `scripts/identify_factions.py`).

The Python code is shallowly embedded: dataclasses become structures,
Python `set`s become `Finset`, Python `dict`s become insertion-ordered
association lists (`List (Nat × String)` etc.), loops become folds or
structural recursion, and printing is modelled as a list of output lines
tagged with the channel they are written to.
-/

set_option autoImplicit false

namespace Infinity

/-- Output channel of a printed line.  Python's bare `print(...)` writes to
standard output; `print(..., file=sys.stderr)` would write to standard error. -/
inductive Channel where
  | stdout
  | stderr
deriving DecidableEq, Repr

/-- One printed line, tagged with its channel. -/
abbrev OutLine := Channel × String

/-- The message `load_json` prints when opening or parsing a file raises. -/
def errLine (path err : String) : String :=
  "Error loading " ++ path ++ ": " ++ err

/-- A weapon / skill / equipment reference record inside a profile or option.
Per the data model every reference record carries an integer ID field. -/
structure Ref where
  id : Nat
deriving DecidableEq, Repr

/-- A profile or an option: each carries (possibly absent, here empty) lists
of skill, equipment and weapon references, mirroring the dictionaries the
Python code reads with `.get('skills', [])` and friends. -/
structure Profile where
  skills : List Ref := []
  equip : List Ref := []
  weapons : List Ref := []
deriving DecidableEq, Repr

/-- A profile group: a `profiles` list and an `options` list. -/
structure ProfileGroup where
  profiles : List Profile := []
  options : List Profile := []
deriving DecidableEq, Repr

/-- The `Unit` dataclass of `query_infinity.py`. -/
structure Unit where
  id : Nat
  isc : String
  name : String
  factions : List Nat
  profile_groups : List ProfileGroup := []
  all_weapon_ids : Finset Nat := ∅
  all_skill_ids : Finset Nat := ∅
  all_equipment_ids : Finset Nat := ∅
deriving DecidableEq

/-- One inner loop of `compute_access`: `for r in refs: s.add(r.get('id'))`. -/
def addRefIds (s : Finset Nat) (refs : List Ref) : Finset Nat :=
  refs.foldl (fun acc r => insert r.id acc) s

/-- Processing one profile (or option) dictionary inside `compute_access`:
the state is the triple (weapon set, skill set, equipment set). -/
def profileStep (st : Finset Nat × Finset Nat × Finset Nat) (p : Profile) :
    Finset Nat × Finset Nat × Finset Nat :=
  (addRefIds st.1 p.weapons, addRefIds st.2.1 p.skills, addRefIds st.2.2 p.equip)

/-- `Unit.compute_access`: resets the three cached ID sets and repopulates
them by walking every profile and every option of every profile group. -/
def Unit.compute_access (u : Unit) : Unit :=
  let st0 : Finset Nat × Finset Nat × Finset Nat := (∅, ∅, ∅)
  let fin := u.profile_groups.foldl
    (fun st pg => pg.options.foldl profileStep (pg.profiles.foldl profileStep st)) st0
  { u with
    all_weapon_ids := fin.1
    all_skill_ids := fin.2.1
    all_equipment_ids := fin.2.2 }

/-- Written from the spec's words, for comparison with `compute_access`:
"the union of the corresponding reference IDs found across every profile and
every option in the unit's profile groups", for the category selected by
`sel`. -/
def spec_union (sel : Profile → List Ref) (u : Unit) : Finset Nat :=
  (u.profile_groups.map (fun pg =>
    (pg.profiles.map (fun p => ((sel p).map Ref.id).toFinset)).foldr (· ∪ ·) ∅ ∪
    (pg.options.map (fun p => ((sel p).map Ref.id).toFinset)).foldr (· ∪ ·) ∅)).foldr
    (· ∪ ·) ∅

theorem addRefIds_eq (refs : List Ref) :
    ∀ s : Finset Nat, addRefIds s refs = s ∪ (refs.map Ref.id).toFinset := by
  induction refs with
  | nil => intro s; simp [addRefIds]
  | cons r rs ih =>
      intro s
      show addRefIds (insert r.id s) rs = _
      rw [ih]
      ext x
      simp [or_assoc]

theorem profileStep_fold (ps : List Profile) :
    ∀ st : Finset Nat × Finset Nat × Finset Nat,
    ps.foldl profileStep st =
      (st.1 ∪ (ps.map (fun p => (p.weapons.map Ref.id).toFinset)).foldr (· ∪ ·) ∅,
       st.2.1 ∪ (ps.map (fun p => (p.skills.map Ref.id).toFinset)).foldr (· ∪ ·) ∅,
       st.2.2 ∪ (ps.map (fun p => (p.equip.map Ref.id).toFinset)).foldr (· ∪ ·) ∅) := by
  induction ps with
  | nil => intro st; simp
  | cons p ps ih =>
      intro st
      show ps.foldl profileStep (profileStep st p) = _
      rw [ih]
      simp only [profileStep, addRefIds_eq, List.map_cons, List.foldr_cons]
      refine Prod.ext ?_ (Prod.ext ?_ ?_) <;> simp [Finset.union_assoc]

theorem compute_access_fold (pgs : List ProfileGroup) :
    ∀ st : Finset Nat × Finset Nat × Finset Nat,
    pgs.foldl
      (fun st pg => pg.options.foldl profileStep (pg.profiles.foldl profileStep st)) st =
      (st.1 ∪ (pgs.map (fun pg =>
          (pg.profiles.map (fun p => (p.weapons.map Ref.id).toFinset)).foldr (· ∪ ·) ∅ ∪
          (pg.options.map (fun p => (p.weapons.map Ref.id).toFinset)).foldr (· ∪ ·) ∅)).foldr (· ∪ ·) ∅,
       st.2.1 ∪ (pgs.map (fun pg =>
          (pg.profiles.map (fun p => (p.skills.map Ref.id).toFinset)).foldr (· ∪ ·) ∅ ∪
          (pg.options.map (fun p => (p.skills.map Ref.id).toFinset)).foldr (· ∪ ·) ∅)).foldr (· ∪ ·) ∅,
       st.2.2 ∪ (pgs.map (fun pg =>
          (pg.profiles.map (fun p => (p.equip.map Ref.id).toFinset)).foldr (· ∪ ·) ∅ ∪
          (pg.options.map (fun p => (p.equip.map Ref.id).toFinset)).foldr (· ∪ ·) ∅)).foldr (· ∪ ·) ∅) := by
  induction pgs with
  | nil => intro st; simp
  | cons pg pgs ih =>
      intro st
      show pgs.foldl _ (pg.options.foldl profileStep (pg.profiles.foldl profileStep st)) = _
      rw [ih, profileStep_fold, profileStep_fold]
      simp only [List.map_cons, List.foldr_cons]
      refine Prod.ext ?_ (Prod.ext ?_ ?_) <;> simp [Finset.union_assoc]

/-- **C1.** After `compute_access`, the unit's cached weapon, skill and
equipment ID sets each equal the union of the corresponding reference IDs
across every profile and every option of the unit's profile groups; and a
unit with zero profile groups gets three empty sets. -/
theorem C1_compute_access_is_spec_union (u : Unit) :
    u.compute_access.all_weapon_ids = spec_union Profile.weapons u ∧
    u.compute_access.all_skill_ids = spec_union Profile.skills u ∧
    u.compute_access.all_equipment_ids = spec_union Profile.equip u ∧
    (u.profile_groups = [] →
      u.compute_access.all_weapon_ids = ∅ ∧
      u.compute_access.all_skill_ids = ∅ ∧
      u.compute_access.all_equipment_ids = ∅) := by
  have h := compute_access_fold u.profile_groups (∅, ∅, ∅)
  refine ⟨?_, ?_, ?_, ?_⟩
  · show (u.profile_groups.foldl _ (∅, ∅, ∅)).1 = _
    rw [h]; simp [spec_union]
  · show (u.profile_groups.foldl _ (∅, ∅, ∅)).2.1 = _
    rw [h]; simp [spec_union]
  · show (u.profile_groups.foldl _ (∅, ∅, ∅)).2.2 = _
    rw [h]; simp [spec_union]
  · intro hnil
    refine ⟨?_, ?_, ?_⟩ <;>
      first
      | (show (u.profile_groups.foldl _ (∅, ∅, ∅)).1 = _; rw [h, hnil]; simp)
      | (show (u.profile_groups.foldl _ (∅, ∅, ∅)).2.1 = _; rw [h, hnil]; simp)
      | (show (u.profile_groups.foldl _ (∅, ∅, ∅)).2.2 = _; rw [h, hnil]; simp)

/-- A concrete unit exercising `C1_compute_access_is_spec_union`'s
zero-profile-group hypothesis. -/
def emptyUnit : Unit :=
  { id := 7, isc := "EMPTY", name := "Empty", factions := [1] }

/-- Witness for C1: the zero-profile-group hypothesis discharged on a
concrete unit. -/
theorem C1_compute_access_is_spec_union_witness :
    emptyUnit.compute_access.all_weapon_ids = ∅ ∧
    emptyUnit.compute_access.all_skill_ids = ∅ ∧
    emptyUnit.compute_access.all_equipment_ids = ∅ :=
  (C1_compute_access_is_spec_union emptyUnit).2.2.2 rfl

/-- **C2.** `compute_access` is idempotent and its result does not depend on
the previously cached sets: overwriting the cached sets with arbitrary
values before recomputing changes nothing. -/
theorem C2_compute_access_idempotent (u : Unit) :
    u.compute_access.compute_access = u.compute_access ∧
    ∀ a b c : Finset Nat,
      ({ u with all_weapon_ids := a, all_skill_ids := b,
                all_equipment_ids := c } : Unit).compute_access = u.compute_access := by
  constructor
  · cases u; rfl
  · intro a b c; cases u; rfl

/-! ## Dictionaries

Python `dict`s keyed by integer IDs are modelled as insertion-ordered
association lists with unique keys: updating an existing key keeps its
position, a new key is appended at the end, and iteration follows list
order, exactly as in CPython. -/

/-- `d[k] = v` on a Python dict. -/
def dictInsert (d : List (Nat × String)) (k : Nat) (v : String) : List (Nat × String) :=
  if d.any (fun p => p.1 == k) then
    d.map (fun p => if p.1 == k then (p.1, v) else p)
  else
    d ++ [(k, v)]

/-- `d.get(k)` on a Python dict (`None` when absent). -/
def dictGet (d : List (Nat × String)) (k : Nat) : Option String :=
  (d.find? (fun p => p.1 == k)).map (fun p => p.2)

/-- The `Database` object of `query_infinity.py` after `__init__` has run:
the four metadata tables and the flat unit list. -/
structure Database where
  weapons : List (Nat × String) := []
  skills : List (Nat × String) := []
  equipment : List (Nat × String) := []
  factions : List (Nat × String) := []
  units : List Unit := []
deriving DecidableEq

/-- Python `str.lower()`: lower-case each character. -/
def pyLower (s : String) : String :=
  ⟨s.data.map Char.toLower⟩

/-- Python `str.strip()`: drop whitespace from both ends. -/
def pyStrip (s : String) : String :=
  ⟨((s.data.dropWhile Char.isWhitespace).reverse.dropWhile Char.isWhitespace).reverse⟩

/-- `Database.normalize_name`: `name.lower().strip()`. -/
def normalize_name (name : String) : String :=
  pyStrip (pyLower name)

/-- Prefix test on character lists (`haystack` starts with `needle`). -/
def chPre : List Char → List Char → Bool
  | [], _ => true
  | _ :: _, [] => false
  | a :: as, b :: bs => a == b && chPre as bs

/-- Python's substring containment `needle in haystack`, on character
lists. -/
def subChars (needle : List Char) : List Char → Bool
  | [] => needle.isEmpty
  | c :: cs => chPre needle (c :: cs) || subChars needle cs

/-- Python's `query in item_name` substring test on strings. -/
def containsSub (needle haystack : String) : Bool :=
  subChars needle.toList haystack.toList

/-- `Database.search_id_by_name`: all IDs in `source` whose display name
contains the (normalized) search string. -/
def search_id_by_name (name : String) (source : List (Nat × String)) : List Nat :=
  let query := normalize_name name
  source.foldl
    (fun ms p =>
      if containsSub query (normalize_name p.2) then ms ++ [p.1] else ms)
    []

/-- Python truthiness of an optional string argument: `None` and `""` are
falsy. -/
def strTruthy : Option String → Bool
  | none => false
  | some s => !s.isEmpty

/-- `search_id_by_name(weapon_name, self.weapons) if weapon_name else []`,
for the weapon table; `weaponTargets`/`skillTargets`/`equipTargets` mirror
the three guarded calls at the top of `search_units`. -/
def weaponTargets (db : Database) (weapon_name : Option String) : List Nat :=
  if strTruthy weapon_name then search_id_by_name (weapon_name.getD "") db.weapons else []

/-- Target skill IDs resolved at the top of `search_units`. -/
def skillTargets (db : Database) (skill_name : Option String) : List Nat :=
  if strTruthy skill_name then search_id_by_name (skill_name.getD "") db.skills else []

/-- Target equipment IDs resolved at the top of `search_units`. -/
def equipTargets (db : Database) (equip_name : Option String) : List Nat :=
  if strTruthy equip_name then search_id_by_name (equip_name.getD "") db.equipment else []

/-- `Unit.has_weapon`. -/
def Unit.has_weapon (u : Unit) (weapon_id : Nat) : Bool :=
  weapon_id ∈ u.all_weapon_ids

/-- `Unit.has_skill`. -/
def Unit.has_skill (u : Unit) (skill_id : Nat) : Bool :=
  skill_id ∈ u.all_skill_ids

/-- `Unit.has_equipment`. -/
def Unit.has_equipment (u : Unit) (equipment_id : Nat) : Bool :=
  equipment_id ∈ u.all_equipment_ids

/-- Python `self.weapons[wid]` for an id known to be in the table (the
target ids are produced from the same table, so the lookup cannot miss). -/
def dictIndex (d : List (Nat × String)) (k : Nat) : String :=
  (dictGet d k).getD ""

/-- The `match_reasons` list `search_units` builds for one unit: one reason
per target weapon, then skill, then equipment id the unit has access to.
The database is taken as an argument because the loop reads the live
`self.weapons`/`self.skills`/`self.equipment` tables for the names. -/
def matchReasons (db : Database) (tw ts te : List Nat) (u : Unit) : List String :=
  (tw.filter (fun wid => u.has_weapon wid)).map
      (fun wid => "Weapon: " ++ dictIndex db.weapons wid) ++
  (ts.filter (fun sid => u.has_skill sid)).map
      (fun sid => "Skill: " ++ dictIndex db.skills sid) ++
  (te.filter (fun eid => u.has_equipment eid)).map
      (fun eid => "Equip: " ++ dictIndex db.equipment eid)

/-- The per-unit loop of `search_units`, threading the object state `st`
explicitly (the loop body never assigns to `self`, so the state it returns
is the state it was given): `seen` is the `seen_unit_id_isc` set, and the
result list collects `(unit, match_reasons)` pairs in unit order. -/
def searchLoop (tw ts te : List Nat) :
    List Unit → Finset String → Database → List (Unit × List String) × Database
  | [], _, st => ([], st)
  | u :: us, seen, st =>
      let reasons := matchReasons st tw ts te u
      if reasons.isEmpty then
        searchLoop tw ts te us seen st
      else if u.isc ∈ seen then
        searchLoop tw ts te us seen st
      else
        let rest := searchLoop tw ts te us (insert u.isc seen) st
        ((u, reasons) :: rest.1, rest.2)

/-- `Database.search_units`, in state-passing form: returns the result list
together with the (unchanged) database state. -/
def search_units_st (db : Database) (weapon_name skill_name equip_name : Option String) :
    List (Unit × List String) × Database :=
  let tw := weaponTargets db weapon_name
  let ts := skillTargets db skill_name
  let te := equipTargets db equip_name
  if tw.isEmpty && ts.isEmpty && te.isEmpty then
    ([], db)
  else
    searchLoop tw ts te db.units ∅ db

/-- `Database.search_units`: the returned result list. -/
def search_units (db : Database) (weapon_name skill_name equip_name : Option String) :
    List (Unit × List String) :=
  (search_units_st db weapon_name skill_name equip_name).1

/-- `Database.get_faction_name`: the stored display name, or the fallback
`"Unknown (<fid>)"` when the faction id is absent from the metadata table. -/
def get_faction_name (db : Database) (fid : Nat) : String :=
  match dictGet db.factions fid with
  | some n => n
  | none => "Unknown (" ++ toString fid ++ ")"

theorem searchLoop_state (tw ts te : List Nat) (us : List Unit) :
    ∀ (seen : Finset String) (st : Database),
      (searchLoop tw ts te us seen st).2 = st := by
  induction us with
  | nil => intro seen st; rfl
  | cons u us ih =>
      intro seen st
      simp only [searchLoop]
      split
      · exact ih seen st
      · split
        · exact ih seen st
        · exact ih (insert u.isc seen) st

/-- **C9.** `search_units` does not mutate the loaded state: the database
state it threads out is the one it was given, so the four metadata tables,
the unit list, and with it every unit's cached ID sets are unchanged. -/
theorem C9_search_units_no_mutation (db : Database)
    (weapon_name skill_name equip_name : Option String) :
    (search_units_st db weapon_name skill_name equip_name).2 = db ∧
    (search_units_st db weapon_name skill_name equip_name).2.weapons = db.weapons ∧
    (search_units_st db weapon_name skill_name equip_name).2.skills = db.skills ∧
    (search_units_st db weapon_name skill_name equip_name).2.equipment = db.equipment ∧
    (search_units_st db weapon_name skill_name equip_name).2.factions = db.factions ∧
    (search_units_st db weapon_name skill_name equip_name).2.units = db.units := by
  have h : (search_units_st db weapon_name skill_name equip_name).2 = db := by
    simp only [search_units_st]
    split
    · rfl
    · exact searchLoop_state _ _ _ _ _ _
  exact ⟨h, by rw [h], by rw [h], by rw [h], by rw [h], by rw [h]⟩

/-- **C7.** With all three query strings empty or absent, `search_units`
returns the empty result list. -/
theorem C7_empty_query_no_results (db : Database)
    (weapon_name skill_name equip_name : Option String)
    (hw : weapon_name = none ∨ weapon_name = some "")
    (hs : skill_name = none ∨ skill_name = some "")
    (he : equip_name = none ∨ equip_name = some "") :
    search_units db weapon_name skill_name equip_name = [] := by
  have hw' : weaponTargets db weapon_name = [] := by
    rcases hw with h | h <;> subst h <;> rfl
  have hs' : skillTargets db skill_name = [] := by
    rcases hs with h | h <;> subst h <;> rfl
  have he' : equipTargets db equip_name = [] := by
    rcases he with h | h <;> subst h <;> rfl
  unfold search_units search_units_st
  simp [hw', hs', he']

/-- Witness for C7: the empty query on a concrete database. -/
theorem C7_empty_query_no_results_witness :
    search_units {} none (some "") none = [] :=
  C7_empty_query_no_results {} none (some "") none (Or.inl rfl) (Or.inr rfl)
    (Or.inl rfl)

/-- **C10.** `get_faction_name` is total: it returns the stored display name
when the faction id is in the metadata table, and the fallback string
`"Unknown (<fid>)"` otherwise. -/
theorem C10_get_faction_name_total (db : Database) (fid : Nat) :
    (∀ n, dictGet db.factions fid = some n → get_faction_name db fid = n) ∧
    (dictGet db.factions fid = none →
      get_faction_name db fid = "Unknown (" ++ toString fid ++ ")") := by
  constructor
  · intro n h
    unfold get_faction_name
    rw [h]
  · intro h
    unfold get_faction_name
    rw [h]

/-- A concrete database with a single faction entry, for witnesses. -/
def exFactionDb : Database :=
  { factions := [(3, "PanOceania")] }

/-- Witness for C10: both branches discharged on a concrete table. -/
theorem C10_get_faction_name_total_witness :
    get_faction_name exFactionDb 3 = "PanOceania" ∧
    get_faction_name exFactionDb 4 = "Unknown (" ++ toString 4 ++ ")" :=
  ⟨(C10_get_faction_name_total exFactionDb 3).1 "PanOceania" rfl,
   (C10_get_faction_name_total exFactionDb 4).2 rfl⟩

theorem searchLoop_isc_fresh (tw ts te : List Nat) (us : List Unit) :
    ∀ (seen : Finset String) (st : Database),
      ((searchLoop tw ts te us seen st).1.map (fun p => p.1.isc)).Nodup ∧
      ∀ p ∈ (searchLoop tw ts te us seen st).1, p.1.isc ∉ seen := by
  induction us with
  | nil =>
      intro seen st
      exact ⟨List.nodup_nil, by intro p hp; cases hp⟩
  | cons u us ih =>
      intro seen st
      simp only [searchLoop]
      split
      · exact ih seen st
      · split
        · exact ih seen st
        · rename_i hres hseen
          obtain ⟨ihnd, ihfresh⟩ := ih (insert u.isc seen) st
          constructor
          · simp only [List.map_cons, List.nodup_cons]
            refine ⟨?_, ihnd⟩
            intro hmem
            obtain ⟨p, hp, hpe⟩ := List.mem_map.mp hmem
            exact ihfresh p hp (hpe ▸ Finset.mem_insert_self u.isc seen)
          · intro p hp
            rcases List.mem_cons.mp hp with h | h
            · subst h; exact hseen
            · exact fun hin => ihfresh p h (Finset.mem_insert_of_mem hin)

theorem searchLoop_first_occurrence (tw ts te : List Nat) (us : List Unit) :
    ∀ (seen : Finset String) (st : Database),
      ∀ p ∈ (searchLoop tw ts te us seen st).1,
        us.find? (fun v => v.isc == p.1.isc && !(matchReasons st tw ts te v).isEmpty)
          = some p.1 := by
  induction us with
  | nil => intro seen st p hp; cases hp
  | cons u us ih =>
      intro seen st p hp
      simp only [searchLoop] at hp
      split at hp
      · rename_i hres
        rw [List.find?_cons_of_neg _ (by simp [hres])]
        exact ih seen st p hp
      · split at hp
        · rename_i hres hseen
          have hfresh := (searchLoop_isc_fresh tw ts te us seen st).2 p hp
          have hne : u.isc ≠ p.1.isc := fun heq => hfresh (heq ▸ hseen)
          rw [List.find?_cons_of_neg _ (by simp [hne])]
          exact ih seen st p hp
        · rename_i hres hseen
          rcases List.mem_cons.mp hp with h | h
          · subst h
            exact List.find?_cons_of_pos _ (by simp [hres])
          · have hfresh :=
              (searchLoop_isc_fresh tw ts te us (insert u.isc seen) st).2 p h
            have hne : u.isc ≠ p.1.isc := by
              intro heq
              exact hfresh (heq ▸ Finset.mem_insert_self u.isc seen)
            rw [List.find?_cons_of_neg _ (by simp [hne])]
            exact ih (insert u.isc seen) st p h

theorem searchLoop_complete (tw ts te : List Nat) (us : List Unit) :
    ∀ (seen : Finset String) (st : Database) (v : Unit),
      v ∈ us → ¬(matchReasons st tw ts te v).isEmpty = true →
      v.isc ∈ seen ∨
      ∃ p ∈ (searchLoop tw ts te us seen st).1, p.1.isc = v.isc := by
  induction us with
  | nil => intro seen st v hv; cases hv
  | cons u us ih =>
      intro seen st v hv hmatch
      simp only [searchLoop]
      split
      · rename_i hres
        rcases List.mem_cons.mp hv with h | h
        · subst h; exact absurd hres hmatch
        · exact ih seen st v h hmatch
      · split
        · rename_i hres hseen
          rcases List.mem_cons.mp hv with h | h
          · subst h; exact Or.inl hseen
          · exact ih seen st v h hmatch
        · rename_i hres hseen
          rcases List.mem_cons.mp hv with h | h
          · subst h
            exact Or.inr ⟨(v, matchReasons st tw ts te v), List.mem_cons_self _ _, rfl⟩
          · rcases ih (insert u.isc seen) st v h hmatch with hin | ⟨p, hp, hpe⟩
            · rcases Finset.mem_insert.mp hin with heq | hin'
              · exact Or.inr ⟨(u, matchReasons st tw ts te u),
                  List.mem_cons_self _ _, heq.symm⟩
              · exact Or.inl hin'
            · exact Or.inr ⟨p, List.mem_cons_of_mem _ hp, hpe⟩

/-- **C3.** `search_units` deduplicates by ISC code: the result list carries
pairwise-distinct ISC codes, each returned unit is the first unit in the
unit list that both matches and carries its ISC code (so among matching
units sharing an ISC code only the first occurrence appears), and every
matching unit's ISC code is represented by some result. -/
theorem C3_search_units_dedup_by_isc (db : Database)
    (weapon_name skill_name equip_name : Option String) :
    ((search_units db weapon_name skill_name equip_name).map
        (fun p => p.1.isc)).Nodup ∧
    (∀ p ∈ search_units db weapon_name skill_name equip_name,
      db.units.find? (fun v =>
        v.isc == p.1.isc &&
        !(matchReasons db (weaponTargets db weapon_name)
            (skillTargets db skill_name) (equipTargets db equip_name) v).isEmpty)
        = some p.1) ∧
    (∀ v ∈ db.units,
      ¬(matchReasons db (weaponTargets db weapon_name)
          (skillTargets db skill_name) (equipTargets db equip_name) v).isEmpty = true →
      ∃ p ∈ search_units db weapon_name skill_name equip_name, p.1.isc = v.isc) := by
  by_cases hcond :
      ((weaponTargets db weapon_name).isEmpty &&
       (skillTargets db skill_name).isEmpty &&
       (equipTargets db equip_name).isEmpty) = true
  · have hres : search_units db weapon_name skill_name equip_name = [] := by
      simp only [search_units, search_units_st]
      rw [if_pos hcond]
    simp only [hres]
    refine ⟨by simp, ?_, ?_⟩
    · intro p hp; cases hp
    intro v _ hmatch
    simp only [Bool.and_eq_true, List.isEmpty_iff] at hcond
    obtain ⟨⟨hw, hs⟩, he⟩ := hcond
    rw [hw, hs, he] at hmatch
    exact absurd rfl hmatch
  · have hres : search_units db weapon_name skill_name equip_name =
        (searchLoop (weaponTargets db weapon_name) (skillTargets db skill_name)
          (equipTargets db equip_name) db.units ∅ db).1 := by
      simp only [search_units, search_units_st]
      rw [if_neg hcond]
    rw [hres]
    refine ⟨(searchLoop_isc_fresh _ _ _ _ _ _).1,
      fun p hp => searchLoop_first_occurrence _ _ _ _ _ _ p hp, ?_⟩
    intro v hv hmatch
    rcases searchLoop_complete _ _ _ db.units ∅ db v hv hmatch with hin | hgood
    · cases Finset.not_mem_empty _ hin
    · exact hgood

/-- A unit carrying weapon 1 in a profile, with ISC code "DUP". -/
def unitAlpha : Unit := Unit.compute_access
  { id := 10, isc := "DUP", name := "Alpha", factions := [3],
    profile_groups := [{ profiles := [{ weapons := [⟨1⟩] }] }] }

/-- A distinct unit erroneously sharing ISC code "DUP", also with weapon 1. -/
def unitBeta : Unit := Unit.compute_access
  { id := 11, isc := "DUP", name := "Beta", factions := [5],
    profile_groups := [{ profiles := [{ weapons := [⟨1⟩] }] }] }

/-- A database whose unit list holds two matching units sharing an ISC. -/
def exDb : Database :=
  { weapons := [(1, "Combi Rifle")], units := [unitAlpha, unitBeta] }

/-- Witness for C3: both hypotheses discharged on a concrete database in
which two distinct matching units share the ISC code "DUP". -/
theorem C3_search_units_dedup_by_isc_witness :
    ∃ p ∈ search_units exDb (some "combi") none none, p.1.isc = "DUP" :=
  (C3_search_units_dedup_by_isc exDb (some "combi") none none).2.2 unitBeta
    (List.mem_cons_of_mem _ (List.mem_cons_self _ _))
    (by decide)

/-! ## Loading

Files on disk are presented to the loader already classified by what
`load_json` and the `'units' in data` check observe: opening or parsing a
file may raise (`malformed`, carrying the exception text), a parsed file
may be falsy or lack a usable `units` list (`noUnits`), or it holds a list
of unit records.  The `metadata.json` entry is kept separate, as both
scripts skip it when globbing data files. -/

/-- A raw unit record as found in a data file's `units` list. -/
structure UnitRec where
  id : Nat
  isc : String
  name : String
  factions : List Nat := []
  profileGroups : List ProfileGroup := []
deriving DecidableEq

/-- One `{id, name}` record of a metadata table. -/
structure MetaEntry where
  id : Nat
  name : String
deriving DecidableEq

/-- The parsed `metadata.json`: top-level keys `factions`, `weapons`,
`skills`, `equips`. -/
structure MetadataContent where
  factions : List MetaEntry := []
  weapons : List MetaEntry := []
  skills : List MetaEntry := []
  equips : List MetaEntry := []
deriving DecidableEq

/-- The metadata file as `load_json` sees it. -/
inductive MetaFile where
  | malformed (err : String)
  | parsed (content : MetadataContent)
deriving DecidableEq

/-- A non-metadata data file as `load_json` and the `units` check see it. -/
inductive LoadedFile where
  | malformed (err : String)
  | noUnits
  | unitsFile (units : List UnitRec)
deriving DecidableEq

/-- The metadata file name (the data-directory prefix of
`os.path.join(data_dir, "metadata.json")` is elided). -/
def metadata_file : String := "metadata.json"

/-- Building one `Unit` from a record in `load_units`: construct the
dataclass and run `compute_access` before appending. -/
def loadUnit (r : UnitRec) : Unit :=
  Unit.compute_access
    { id := r.id, isc := r.isc, name := r.name, factions := r.factions,
      profile_groups := r.profileGroups }

/-- `Database.load_metadata`: on a load failure the error is printed and the
method merely returns, leaving the tables as they were; otherwise the four
tables are filled from the four top-level lists. -/
def load_metadata (db : Database) (mf : MetaFile) : Database × List OutLine :=
  match mf with
  | .malformed e => (db, [(Channel.stdout, errLine metadata_file e)])
  | .parsed c =>
      ({ db with
          factions := c.factions.foldl (fun d f => dictInsert d f.id f.name) db.factions,
          weapons := c.weapons.foldl (fun d w => dictInsert d w.id w.name) db.weapons,
          skills := c.skills.foldl (fun d s => dictInsert d s.id s.name) db.skills,
          equipment := c.equips.foldl (fun d e => dictInsert d e.id e.name) db.equipment },
       [])

/-- `Database.load_units`: iterate over the data files; a file that fails to
load prints its error and contributes nothing, a file without a `units` list
is skipped, and each unit record of the remaining files is appended after
`compute_access`. -/
def load_units (db : Database) : List (String × LoadedFile) → Database × List OutLine
  | [] => (db, [])
  | f :: fs =>
      match f.2 with
      | .malformed e =>
          let rest := load_units db fs
          (rest.1, (Channel.stdout, errLine f.1 e) :: rest.2)
      | .noUnits => load_units db fs
      | .unitsFile rs =>
          load_units { db with units := db.units ++ rs.map loadUnit } fs

/-- `Database.__init__`: an empty database, then `load_metadata`, then
`load_units`, with the printed lines in that order. -/
def Database.load (mf : MetaFile) (files : List (String × LoadedFile)) :
    Database × List OutLine :=
  let m := load_metadata {} mf
  let u := load_units m.1 files
  (u.1, m.2 ++ u.2)

/-- The units a single data file contributes to the load. -/
def fileUnits : LoadedFile → List Unit
  | .malformed _ => []
  | .noUnits => []
  | .unitsFile rs => rs.map loadUnit

/-! ## Faction identifier (`identify_factions.py`) -/

/-- `faction_counts[fid] = faction_counts.get(fid, 0) + 1` on the counts
dictionary. -/
def bumpCount (d : List (Nat × Nat)) (fid : Nat) : List (Nat × Nat) :=
  if d.any (fun p => p.1 == fid) then
    d.map (fun p => if p.1 == fid then (p.1, p.2 + 1) else p)
  else
    d ++ [(fid, 1)]

/-- The frequency analysis: count every faction-ID occurrence across all
units of a file. -/
def faction_counts (units : List UnitRec) : List (Nat × Nat) :=
  units.foldl (fun d u => u.factions.foldl (fun d2 fid => bumpCount d2 fid) d) []

/-- One step of a stable descending insertion by count: `x` passes every
entry with a count at least its own, as Python's stable
`sorted(..., key=count, reverse=True)` keeps ties in first-seen order. -/
def insertDesc (x : Nat × Nat) : List (Nat × Nat) → List (Nat × Nat)
  | [] => [x]
  | y :: ys => if y.2 < x.2 then x :: y :: ys else y :: insertDesc x ys

/-- `sorted(faction_counts.items(), key=count, reverse=True)`. -/
def sortCountsDesc (l : List (Nat × Nat)) : List (Nat × Nat) :=
  l.foldl (fun acc x => insertDesc x acc) []

/-- The classification `identify_factions.main` derives for one data file's
unit list. -/
inductive FileReport where
  /-- `EMPTY | Unit list is empty` -/
  | emptyUnits
  /-- `EMPTY | No faction data found` -/
  | noFactionData
  /-- `MIXED`, showing the most frequent faction for reference. -/
  | mixed (best_fid best_count : Nat)
  /-- Candidate owners: each faction above the 50% threshold, with its
  count and percentage, in descending-count order. -/
  | owned (candidates : List (Nat × Nat × ℚ))
deriving DecidableEq

/-- The per-file frequency analysis of `identify_factions.main`: count
faction occurrences, sort descending, keep the factions whose percentage of
the unit count strictly exceeds 50 (the float arithmetic of
`(count / total_units) * 100 > 50` is modelled exactly, over `ℚ`). -/
def analyzeUnits (units : List UnitRec) : FileReport :=
  if units.isEmpty then .emptyUnits
  else
    match sortCountsDesc (faction_counts units) with
    | [] => .noFactionData
    | best :: rest =>
        let cands := (best :: rest).filter
          (fun p => decide ((p.2 : ℚ) / (units.length : ℚ) * 100 > 50))
        if cands.isEmpty then .mixed best.1 best.2
        else .owned (cands.map
          (fun p => (p.1, p.2, (p.2 : ℚ) / (units.length : ℚ) * 100)))

/-- The candidate-owner list a report carries (empty unless candidates were
found). -/
def reportCandidates : FileReport → List (Nat × Nat × ℚ)
  | .owned cands => cands
  | _ => []

/-- Rendering of one data-file row.  The fixed-width column padding and the
numeric count/percentage formatting of the source's format strings are
elided; the channel and the qualitative content are what matters here. -/
def reportLine (fmap : List (Nat × String)) (filename : String) : FileReport → String
  | .emptyUnits => filename ++ " | EMPTY | Unit list is empty"
  | .noFactionData => filename ++ " | EMPTY | No faction data found"
  | .mixed fid _ => filename ++ " | MIXED | Top: " ++ (dictGet fmap fid).getD "None"
  | .owned cands =>
      filename ++ " | " ++
        String.intercalate ", " (cands.map (fun p => (dictGet fmap p.1).getD "Unknown"))

/-- The per-file handling inside `identify_factions.main`'s loop: a file
that fails to load prints its error and is skipped, a file without a usable
`units` list is skipped silently, and otherwise one classification row is
printed. -/
def identifyFile (fmap : List (Nat × String)) (path : String) :
    LoadedFile → List OutLine
  | .malformed e => [(Channel.stdout, errLine path e)]
  | .noUnits => []
  | .unitsFile rs => [(Channel.stdout, reportLine fmap path (analyzeUnits rs))]

/-- `identify_factions.main`, over the metadata file and the (sorted,
metadata-excluded) data files.  A metadata load failure is fatal: the
message is printed and the function returns before touching any data
file. -/
def identify_main (mf : MetaFile) (files : List (String × LoadedFile)) : List OutLine :=
  match mf with
  | .malformed e =>
      [(Channel.stdout, errLine metadata_file e),
       (Channel.stdout, "Failed to load metadata. Exiting.")]
  | .parsed c =>
      let fmap := c.factions.foldl (fun d f => dictInsert d f.id f.name) []
      [(Channel.stdout, "Filename | Faction ID | Faction Name")] ++
      files.foldr (fun f out => identifyFile fmap f.1 f.2 ++ out) []

theorem load_units_tables (files : List (String × LoadedFile)) :
    ∀ db : Database,
      (load_units db files).1.weapons = db.weapons ∧
      (load_units db files).1.skills = db.skills ∧
      (load_units db files).1.equipment = db.equipment ∧
      (load_units db files).1.factions = db.factions := by
  induction files with
  | nil => intro db; exact ⟨rfl, rfl, rfl, rfl⟩
  | cons f fs ih =>
      intro db
      rcases f with ⟨p, lf⟩
      cases lf <;> simp only [load_units] <;> exact ih _

theorem load_units_units (files : List (String × LoadedFile)) :
    ∀ db : Database,
      (load_units db files).1.units =
        db.units ++ files.foldr (fun f acc => fileUnits f.2 ++ acc) [] := by
  induction files with
  | nil => intro db; simp [load_units]
  | cons f fs ih =>
      intro db
      rcases f with ⟨p, lf⟩
      cases lf <;> simp [load_units, fileUnits, ih]

theorem load_units_out_stdout (files : List (String × LoadedFile)) :
    ∀ db : Database, ∀ l ∈ (load_units db files).2, l.1 = Channel.stdout := by
  induction files with
  | nil => intro db l hl; cases hl
  | cons f fs ih =>
      intro db l hl
      rcases f with ⟨p, lf⟩
      cases lf with
      | malformed e =>
          rcases List.mem_cons.mp hl with h | h
          · subst h; rfl
          · exact ih _ l h
      | noUnits => exact ih _ l hl
      | unitsFile rs => exact ih _ l hl

theorem load_units_append (xs ys : List (String × LoadedFile)) :
    ∀ db : Database,
      load_units db (xs ++ ys) =
        ((load_units (load_units db xs).1 ys).1,
         (load_units db xs).2 ++ (load_units (load_units db xs).1 ys).2) := by
  induction xs with
  | nil => intro db; simp [load_units]
  | cons f fs ih =>
      intro db
      rcases f with ⟨p, lf⟩
      cases lf <;> simp [load_units, ih]

/-- A concrete data file record, used by counterexamples and witnesses. -/
def fusilierRec : UnitRec :=
  { id := 1, isc := "FUS", name := "Fusilier", factions := [3] }

/-- Counterexample for C4: with the metadata file missing, the query tool's
load does **not** abort — `load_metadata` returns after printing the error,
and the data file's unit is still loaded. -/
theorem C4_counterexample_query_tool_continues :
    (Database.load (MetaFile.malformed "No such file or directory")
        [("panoceania.json", LoadedFile.unitsFile [fusilierRec])]).1.units =
      [loadUnit fusilierRec] ∧
    (Database.load (MetaFile.malformed "No such file or directory")
        [("panoceania.json", LoadedFile.unitsFile [fusilierRec])]).1.factions = [] := by
  constructor <;> rfl

/-- **C4 (amended).** A missing or unparsable metadata file is fatal in
`identify_factions` — the error and `Failed to load metadata. Exiting.` are
printed and no data file is processed — but not in the query tool: there
`load_metadata` merely returns, the four metadata tables stay empty, and
the units of every data file are still loaded, exactly as under an empty
parsed metadata file. -/
theorem C4_missing_metadata (e : String) (files : List (String × LoadedFile)) :
    identify_main (MetaFile.malformed e) files =
      [(Channel.stdout, errLine metadata_file e),
       (Channel.stdout, "Failed to load metadata. Exiting.")] ∧
    (Database.load (MetaFile.malformed e) files).1.factions = [] ∧
    (Database.load (MetaFile.malformed e) files).1.weapons = [] ∧
    (Database.load (MetaFile.malformed e) files).1.skills = [] ∧
    (Database.load (MetaFile.malformed e) files).1.equipment = [] ∧
    (Database.load (MetaFile.malformed e) files).1.units =
      (Database.load (MetaFile.parsed {}) files).1.units := by
  obtain ⟨hw, hs, he, hf⟩ := load_units_tables files ({} : Database)
  exact ⟨rfl, hf, hw, hs, he, rfl⟩

/-- Counterexample for C5: the malformed-JSON error line is printed to
standard output, and nothing at all is written to standard error. -/
theorem C5_counterexample_error_on_stdout :
    (Database.load (MetaFile.parsed {})
        [("bad.json", LoadedFile.malformed "Expecting value: line 1 column 1 (char 0)")]).2 =
      [(Channel.stdout,
        errLine "bad.json" "Expecting value: line 1 column 1 (char 0)")] ∧
    ((Database.load (MetaFile.parsed {})
        [("bad.json", LoadedFile.malformed "Expecting value: line 1 column 1 (char 0)")]).2.filter
      (fun l => l.1 == Channel.stderr)) = [] := by
  constructor <;> rfl

/-- **C5 (amended).** Malformed JSON in a data file is caught and logged —
to standard output, not standard error (the scripts' bare `print` writes to
stdout) — the file contributes no units, and the load never aborts: the
database state is as if the malformed file were absent, and every line the
loader prints, error lines included, goes to standard output. -/
theorem C5_malformed_json_recovery (db : Database)
    (pre post : List (String × LoadedFile)) (path e : String) :
    fileUnits (LoadedFile.malformed e) = [] ∧
    (load_units db (pre ++ [(path, LoadedFile.malformed e)] ++ post)).1 =
      (load_units db (pre ++ post)).1 ∧
    (Channel.stdout, errLine path e) ∈
      (load_units db (pre ++ [(path, LoadedFile.malformed e)] ++ post)).2 ∧
    ∀ l ∈ (load_units db (pre ++ [(path, LoadedFile.malformed e)] ++ post)).2,
      l.1 = Channel.stdout := by
  refine ⟨rfl, ?_, ?_, fun l hl => load_units_out_stdout _ _ l hl⟩
  · rw [load_units_append (pre ++ [(path, LoadedFile.malformed e)]) post,
        load_units_append pre [(path, LoadedFile.malformed e)],
        load_units_append pre post]
    simp [load_units]
  · rw [load_units_append (pre ++ [(path, LoadedFile.malformed e)]) post,
        load_units_append pre [(path, LoadedFile.malformed e)]]
    apply List.mem_append_left
    apply List.mem_append_right
    exact List.mem_cons_self _ _

/-- Witness for C5 (amended) on a concrete load: one good file before and
one unusable file after the malformed one. -/
theorem C5_malformed_json_recovery_witness :
    (load_units {} ([("a.json", LoadedFile.unitsFile [fusilierRec])] ++
        [("bad.json", LoadedFile.malformed "boom")] ++
        [("b.json", LoadedFile.noUnits)])).1 =
      (load_units {} ([("a.json", LoadedFile.unitsFile [fusilierRec])] ++
        [("b.json", LoadedFile.noUnits)])).1 ∧
    (Channel.stdout, errLine "bad.json" "boom") ∈
      (load_units {} ([("a.json", LoadedFile.unitsFile [fusilierRec])] ++
        [("bad.json", LoadedFile.malformed "boom")] ++
        [("b.json", LoadedFile.noUnits)])).2 :=
  ⟨(C5_malformed_json_recovery {} [("a.json", LoadedFile.unitsFile [fusilierRec])]
      [("b.json", LoadedFile.noUnits)] "bad.json" "boom").2.1,
   (C5_malformed_json_recovery {} [("a.json", LoadedFile.unitsFile [fusilierRec])]
      [("b.json", LoadedFile.noUnits)] "bad.json" "boom").2.2.1⟩

theorem insertDesc_perm (x : Nat × Nat) (l : List (Nat × Nat)) :
    List.Perm (insertDesc x l) (x :: l) := by
  induction l with
  | nil => exact List.Perm.refl _
  | cons y ys ih =>
      simp only [insertDesc]
      split
      · exact List.Perm.refl _
      · exact (ih.cons y).trans (List.Perm.swap x y ys)

theorem sortCountsDesc_perm_aux (l : List (Nat × Nat)) :
    ∀ acc, List.Perm (l.foldl (fun acc x => insertDesc x acc) acc) (acc ++ l) := by
  induction l with
  | nil => intro acc; simp
  | cons x xs ih =>
      intro acc
      refine ((ih (insertDesc x acc)).trans ?_)
      refine (((insertDesc_perm x acc).append_right xs).trans ?_)
      exact List.perm_middle.symm

theorem sortCountsDesc_perm (l : List (Nat × Nat)) :
    List.Perm (sortCountsDesc l) l := by
  simpa using sortCountsDesc_perm_aux l []

theorem insertDesc_sorted (x : Nat × Nat) (l : List (Nat × Nat))
    (h : l.Pairwise (fun a b => b.2 ≤ a.2)) :
    (insertDesc x l).Pairwise (fun a b => b.2 ≤ a.2) := by
  induction l with
  | nil => simp [insertDesc]
  | cons y ys ih =>
      simp only [insertDesc]
      split
      · rename_i hlt
        refine List.Pairwise.cons ?_ h
        intro z hz
        rcases List.mem_cons.mp hz with rfl | hz'
        · exact le_of_lt hlt
        · exact le_trans (List.rel_of_pairwise_cons h hz') (le_of_lt hlt)
      · rename_i hge
        refine List.Pairwise.cons ?_ (ih h.of_cons)
        intro z hz
        rcases List.mem_cons.mp ((insertDesc_perm x ys).mem_iff.mp hz) with rfl | hz'
        · exact Nat.le_of_not_lt hge
        · exact List.rel_of_pairwise_cons h hz'

theorem sortCountsDesc_sorted (l : List (Nat × Nat)) :
    (sortCountsDesc l).Pairwise (fun a b => b.2 ≤ a.2) := by
  have aux : ∀ (l' : List (Nat × Nat)) (acc : List (Nat × Nat)),
      acc.Pairwise (fun a b => b.2 ≤ a.2) →
      (l'.foldl (fun acc x => insertDesc x acc) acc).Pairwise
        (fun a b => b.2 ≤ a.2) := by
    intro l'
    induction l' with
    | nil => intro acc h; exact h
    | cons x xs ih => intro acc h; exact ih _ (insertDesc_sorted x acc h)
  exact aux l [] List.Pairwise.nil

/-- The float comparison `(count / total_units) * 100 > 50`, over `ℚ`,
holds exactly when twice the count strictly exceeds the total. -/
theorem pct_gt_50_iff (c t : Nat) (ht : 0 < t) :
    ((c : ℚ) / (t : ℚ) * 100 > 50) ↔ 2 * c > t := by
  have ht' : (0 : ℚ) < (t : ℚ) := by exact_mod_cast ht
  rw [gt_iff_lt, div_mul_eq_mul_div, lt_div_iff₀ ht']
  rw [show ((50 : ℚ) * (t : ℚ)) = ((50 * t : ℕ) : ℚ) by push_cast; ring,
      show ((c : ℚ) * 100) = ((c * 100 : ℕ) : ℚ) by push_cast; ring,
      Nat.cast_lt]
  omega

/-- **C6.** For a non-empty unit list, the candidate owners reported are
exactly the factions whose occurrence count strictly exceeds 50% of the
unit count; and when no count exceeds the threshold — in particular when
the top faction sits at exactly 50% — the file is classified MIXED, showing
a faction of maximal count for reference. -/
theorem C6_candidate_threshold (units : List UnitRec) (hne : units ≠ []) :
    (∀ fid c q, (fid, c, q) ∈ reportCandidates (analyzeUnits units) ↔
      ((fid, c) ∈ faction_counts units ∧ 2 * c > units.length ∧
        q = (c : ℚ) / (units.length : ℚ) * 100)) ∧
    ((∀ p ∈ faction_counts units, 2 * p.2 ≤ units.length) →
      faction_counts units ≠ [] →
      ∃ fid c, analyzeUnits units = FileReport.mixed fid c ∧
        (fid, c) ∈ faction_counts units ∧
        ∀ p ∈ faction_counts units, p.2 ≤ c) := by
  have ht : 0 < units.length := List.length_pos.mpr hne
  have hie : units.isEmpty = false := by
    cases units with
    | nil => exact absurd rfl hne
    | cons a l => rfl
  have hperm := sortCountsDesc_perm (faction_counts units)
  have hsorted := sortCountsDesc_sorted (faction_counts units)
  cases hsrt : sortCountsDesc (faction_counts units) with
  | nil =>
      have hnil : faction_counts units = [] := ((hsrt ▸ hperm).symm).eq_nil
      have hana : analyzeUnits units = FileReport.noFactionData := by
        simp [analyzeUnits, hie, hsrt]
      constructor
      · intro fid c q
        rw [hana]
        simp [reportCandidates, hnil]
      · intro _ hne2
        exact absurd hnil hne2
  | cons best rest =>
      rw [hsrt] at hperm hsorted
      have hmem : ∀ p : Nat × Nat,
          (p ∈ faction_counts units ↔ p ∈ best :: rest) :=
        fun p => (hperm.mem_iff).symm
      have hcond : ∀ p : Nat × Nat,
          (decide ((p.2 : ℚ) / (units.length : ℚ) * 100 > 50) = true ↔
            2 * p.2 > units.length) := by
        intro p
        rw [decide_eq_true_eq]
        exact pct_gt_50_iff p.2 units.length ht
      cases hc : ((best :: rest).filter
          (fun p => decide ((p.2 : ℚ) / (units.length : ℚ) * 100 > 50))).isEmpty with
      | true =>
          have hfil : (best :: rest).filter
              (fun p => decide ((p.2 : ℚ) / (units.length : ℚ) * 100 > 50)) = [] :=
            List.isEmpty_iff.mp hc
          have hnone : ∀ p ∈ best :: rest, ¬(2 * p.2 > units.length) := by
            intro p hp
            have := List.filter_eq_nil_iff.mp hfil p hp
            intro h2
            exact this ((hcond p).mpr h2)
          have hana : analyzeUnits units = FileReport.mixed best.1 best.2 := by
            simp only [analyzeUnits, hie, Bool.false_eq_true, if_false, hsrt]
            rw [hfil]
            rfl
          constructor
          · intro fid c q
            rw [hana]
            simp only [reportCandidates, List.not_mem_nil, false_iff]
            intro ⟨hin, hgt, _⟩
            exact hnone (fid, c) ((hmem (fid, c)).mp hin) hgt
          · intro _ _
            refine ⟨best.1, best.2, hana, (hmem best).mpr (List.mem_cons_self _ _), ?_⟩
            intro p hp
            rcases List.mem_cons.mp ((hmem p).mp hp) with rfl | hp'
            · exact le_refl _
            · exact List.rel_of_pairwise_cons hsorted hp'
      | false =>
          have hfil : (best :: rest).filter
              (fun p => decide ((p.2 : ℚ) / (units.length : ℚ) * 100 > 50)) ≠ [] := by
            intro h
            rw [h] at hc
            cases hc
          have hana : analyzeUnits units = FileReport.owned
              (((best :: rest).filter
                (fun p => decide ((p.2 : ℚ) / (units.length : ℚ) * 100 > 50))).map
                (fun p => (p.1, p.2, (p.2 : ℚ) / (units.length : ℚ) * 100))) := by
            simp only [analyzeUnits, hie, Bool.false_eq_true, if_false, hsrt]
            rw [if_neg (by simpa [List.isEmpty_iff] using hfil)]
          constructor
          · intro fid c q
            rw [hana]
            simp only [reportCandidates, List.mem_map, List.mem_filter]
            constructor
            · rintro ⟨p, ⟨hpmem, hpcond⟩, hpe⟩
              injection hpe with h1 h23
              injection h23 with h2 h3
              subst h1
              subst h2
              exact ⟨(hmem p).mpr hpmem, (hcond p).mp hpcond, h3.symm⟩
            · rintro ⟨hin, hgt, hq⟩
              refine ⟨(fid, c), ⟨(hmem (fid, c)).mp hin, (hcond (fid, c)).mpr hgt⟩, ?_⟩
              rw [hq]
          · intro hall _
            obtain ⟨p, hp⟩ := List.exists_mem_of_ne_nil _ hfil
            obtain ⟨hpmem, hpcond⟩ := List.mem_filter.mp hp
            have h1 : 2 * p.2 > units.length := (hcond p).mp hpcond
            have h2 : 2 * p.2 ≤ units.length := hall p ((hmem p).mpr hpmem)
            omega

/-- A unit record with faction 7, for the C6 witness. -/
def recSeven : UnitRec := { id := 1, isc := "A1", name := "A", factions := [7] }

/-- A unit record with faction 8, for the C6 witness. -/
def recEight : UnitRec := { id := 2, isc := "B1", name := "B", factions := [8] }

/-- Witness for C6: a two-unit file splitting 50/50 between factions 7 and 8
— the top faction sits at exactly 50%, so the file is MIXED and the shown
faction has maximal count. -/
theorem C6_candidate_threshold_witness :
    ∃ fid c, analyzeUnits [recSeven, recEight] = FileReport.mixed fid c ∧
      (fid, c) ∈ faction_counts [recSeven, recEight] ∧
      ∀ p ∈ faction_counts [recSeven, recEight], p.2 ≤ c :=
  (C6_candidate_threshold [recSeven, recEight] (by decide)).2
    (by decide) (by decide)

/-! ## Faction-aggregated reporting (`--by-faction`) -/

/-- `faction_access[fid] = []` creation (when the key is new) plus
`faction_access[fid].append((unit, reasons))`, as one dict operation:
an existing key keeps its position, a new key is appended at the end. -/
def dictAppendEntry (d : List (Nat × List (Unit × List String))) (fid : Nat)
    (x : Unit × List String) : List (Nat × List (Unit × List String)) :=
  if d.any (fun q => q.1 == fid) then
    d.map (fun q => if q.1 == fid then (q.1, q.2 ++ [x]) else q)
  else
    d ++ [(fid, [x])]

/-- The `faction_access` dictionary the `--by-faction` branch of `main`
builds: every result is appended under every faction id of its unit. -/
def factionAccess (results : List (Unit × List String)) :
    List (Nat × List (Unit × List String)) :=
  results.foldl
    (fun acc p => p.1.factions.foldl (fun a fid => dictAppendEntry a fid p) acc) []

/-- `missing_fids = all_fids - access_fids`: the `FACTIONS WITHOUT ACCESS`
set. -/
def missingFids (db : Database) (results : List (Unit × List String)) : Finset Nat :=
  (db.factions.map (fun q => q.1)).toFinset \
    ((factionAccess results).map (fun q => q.1)).toFinset

theorem dictAppendEntry_preserve (d : List (Nat × List (Unit × List String)))
    (fid : Nat) (x : Unit × List String) (fid' : Nat)
    (l : List (Unit × List String)) (x' : Unit × List String)
    (h : (fid', l) ∈ d) (hx : x' ∈ l) :
    ∃ l', (fid', l') ∈ dictAppendEntry d fid x ∧ x' ∈ l' := by
  unfold dictAppendEntry
  split
  · by_cases hb : (fid' == fid) = true
    · refine ⟨l ++ [x], ?_, List.mem_append_left _ hx⟩
      have hm := List.mem_map_of_mem
        (fun q : Nat × List (Unit × List String) =>
          if q.1 == fid then (q.1, q.2 ++ [x]) else q) h
      simpa [hb] using hm
    · refine ⟨l, ?_, hx⟩
      have hm := List.mem_map_of_mem
        (fun q : Nat × List (Unit × List String) =>
          if q.1 == fid then (q.1, q.2 ++ [x]) else q) h
      simpa [hb] using hm
  · exact ⟨l, List.mem_append_left _ h, hx⟩

theorem dictAppendEntry_adds (d : List (Nat × List (Unit × List String)))
    (fid : Nat) (x : Unit × List String) :
    ∃ l', (fid, l') ∈ dictAppendEntry d fid x ∧ x ∈ l' := by
  unfold dictAppendEntry
  split
  · rename_i hany
    obtain ⟨q, hq, hqe⟩ := List.any_eq_true.mp hany
    have hq1 : q.1 = fid := by simpa using hqe
    have hm := List.mem_map_of_mem
      (fun q : Nat × List (Unit × List String) =>
        if q.1 == fid then (q.1, q.2 ++ [x]) else q) hq
    refine ⟨q.2 ++ [x], ?_, by simp⟩
    simpa [hqe, hq1] using hm
  · exact ⟨[x], by simp, by simp⟩

theorem factionFold_preserve (p : Unit × List String) (fs : List Nat) :
    ∀ (acc : List (Nat × List (Unit × List String))) (fid' : Nat)
      (l : List (Unit × List String)) (x' : Unit × List String),
      (fid', l) ∈ acc → x' ∈ l →
      ∃ l', (fid', l') ∈ fs.foldl (fun a fid => dictAppendEntry a fid p) acc ∧
        x' ∈ l' := by
  induction fs with
  | nil => intro acc fid' l x' h hx; exact ⟨l, h, hx⟩
  | cons f fs ih =>
      intro acc fid' l x' h hx
      obtain ⟨l1, h1, hx1⟩ := dictAppendEntry_preserve acc f p fid' l x' h hx
      exact ih _ fid' l1 x' h1 hx1

theorem factionFold_adds (p : Unit × List String) (fs : List Nat) :
    ∀ (acc : List (Nat × List (Unit × List String))) (fid : Nat), fid ∈ fs →
      ∃ l, (fid, l) ∈ fs.foldl (fun a f => dictAppendEntry a f p) acc ∧ p ∈ l := by
  induction fs with
  | nil => intro acc fid h; cases h
  | cons f fs ih =>
      intro acc fid h
      rcases List.mem_cons.mp h with rfl | h'
      · obtain ⟨l, hl, hp⟩ := dictAppendEntry_adds acc fid p
        exact factionFold_preserve p fs _ fid l p hl hp
      · exact ih _ fid h'

theorem faFold_preserve (rs : List (Unit × List String)) :
    ∀ (acc : List (Nat × List (Unit × List String))) (fid : Nat)
      (l : List (Unit × List String)) (x' : Unit × List String),
      (fid, l) ∈ acc → x' ∈ l →
      ∃ l', (fid, l') ∈ rs.foldl
          (fun acc p => p.1.factions.foldl (fun a f => dictAppendEntry a f p) acc)
          acc ∧ x' ∈ l' := by
  induction rs with
  | nil => intro acc fid l x' h hx; exact ⟨l, h, hx⟩
  | cons r rs ih =>
      intro acc fid l x' h hx
      obtain ⟨l1, h1, hx1⟩ := factionFold_preserve r r.1.factions acc fid l x' h hx
      exact ih _ fid l1 x' h1 hx1

theorem faFold_adds (rs : List (Unit × List String)) :
    ∀ (acc : List (Nat × List (Unit × List String)))
      (p : Unit × List String) (fid : Nat), p ∈ rs → fid ∈ p.1.factions →
      ∃ l, (fid, l) ∈ rs.foldl
          (fun acc p => p.1.factions.foldl (fun a f => dictAppendEntry a f p) acc)
          acc ∧ p ∈ l := by
  induction rs with
  | nil => intro acc p fid h; cases h
  | cons r rs ih =>
      intro acc p fid hp hf
      rcases List.mem_cons.mp hp with rfl | hp'
      · obtain ⟨l, hl, hpl⟩ := factionFold_adds p p.1.factions acc fid hf
        exact faFold_preserve rs _ fid l p hl hpl
      · exact ih _ p fid hp' hf

/-- **C8.** In `--by-faction` mode every matched unit is grouped under each
faction id it belongs to (its `(unit, reasons)` pair is in that faction's
`faction_access` entry), and no faction with at least one matched unit is
in the `FACTIONS WITHOUT ACCESS` set. -/
theorem C8_by_faction_grouping (db : Database)
    (weapon_name skill_name equip_name : Option String)
    (p : Unit × List String) (fid : Nat)
    (hp : p ∈ search_units db weapon_name skill_name equip_name)
    (hf : fid ∈ p.1.factions) :
    (∃ l, (fid, l) ∈ factionAccess (search_units db weapon_name skill_name equip_name) ∧
      p ∈ l) ∧
    fid ∉ missingFids db (search_units db weapon_name skill_name equip_name) := by
  obtain ⟨l, hl, hpl⟩ :=
    faFold_adds (search_units db weapon_name skill_name equip_name) [] p fid hp hf
  refine ⟨⟨l, hl, hpl⟩, ?_⟩
  intro hmiss
  obtain ⟨-, hnot⟩ := Finset.mem_sdiff.mp hmiss
  exact hnot (List.mem_toFinset.mpr (List.mem_map_of_mem (fun q => q.1) hl))

/-- A matching unit belonging to factions 3 and 5, for the C8 witness. -/
def unitGamma : Unit := Unit.compute_access
  { id := 20, isc := "GAM", name := "Gamma", factions := [3, 5],
    profile_groups := [{ profiles := [{ weapons := [⟨1⟩] }] }] }

/-- A database with three factions in metadata, of which only 3 and 5 have a
matching unit. -/
def exDbC8 : Database :=
  { weapons := [(1, "Combi Rifle")],
    factions := [(3, "PanOceania"), (5, "Haqqislam"), (9, "Ariadna")],
    units := [unitGamma] }

/-- Witness for C8: the unit with factions 3 and 5 appears in both factions'
access lists, and neither faction is in the missing set. -/
theorem C8_by_faction_grouping_witness :
    ((∃ l, (3, l) ∈ factionAccess (search_units exDbC8 (some "combi") none none) ∧
        (unitGamma, ["Weapon: Combi Rifle"]) ∈ l) ∧
      3 ∉ missingFids exDbC8 (search_units exDbC8 (some "combi") none none)) ∧
    ((∃ l, (5, l) ∈ factionAccess (search_units exDbC8 (some "combi") none none) ∧
        (unitGamma, ["Weapon: Combi Rifle"]) ∈ l) ∧
      5 ∉ missingFids exDbC8 (search_units exDbC8 (some "combi") none none)) :=
  ⟨C8_by_faction_grouping exDbC8 (some "combi") none none
      (unitGamma, ["Weapon: Combi Rifle"]) 3 (by decide) (by decide),
   C8_by_faction_grouping exDbC8 (some "combi") none none
      (unitGamma, ["Weapon: Combi Rifle"]) 5 (by decide) (by decide)⟩

end Infinity
